import Mathlib

/-!
Verification development for the Podster caption-extraction pipeline.

The Python sources under `src/server` and `src/attached_assets` are shallowly
embedded below.  Strings are modelled as `List Char`; Python `str.replace`,
`re.sub`, `re.findall` and `str.strip` are modelled by executable recursive
functions over character lists.  Network calls, `json.loads`,
`html.unescape`, `unicode_escape` decoding and the OpenAI / transcript-API
collaborators are modelled as explicit inputs or function parameters at the
boundaries where the code consumes them.
-/

namespace Podster

/-- Whitespace test matching Python's `\s` (and `str.strip`) on `str`
patterns: ASCII whitespace, the C1 separators, and the Unicode
white-space code points. -/
def isWS (c : Char) : Bool :=
  c.toNat ∈ [32, 9, 10, 13, 11, 12, 28, 29, 30, 31, 0x85, 0xa0, 0x1680,
    0x2000, 0x2001, 0x2002, 0x2003, 0x2004, 0x2005, 0x2006, 0x2007, 0x2008,
    0x2009, 0x200a, 0x2028, 0x2029, 0x202f, 0x205f, 0x3000]

/-- Consume the literal `p` from the front of `s`; `some rest` on success. -/
def dropLit : List Char → List Char → Option (List Char)
  | [], s => some s
  | _ :: _, [] => none
  | p :: ps, c :: cs => if c = p then dropLit ps cs else none

/-- `occursB p s` is true iff `p` occurs as a contiguous substring of `s`
(Python's `p in s`). -/
def occursB (p : List Char) : List Char → Bool
  | [] => p.isPrefixOf []
  | c :: cs => p.isPrefixOf (c :: cs) || occursB p cs

/-- Fuel-based core of Python `str.replace(p, r)`: replace non-overlapping
occurrences of `p` by `r`, scanning left to right, never rescanning the
replacement text. -/
def replaceAllF (r p : List Char) : Nat → List Char → List Char
  | 0, s => s
  | _ + 1, [] => []
  | fuel + 1, c :: cs =>
    if p.isPrefixOf (c :: cs) then
      r ++ replaceAllF r p fuel ((c :: cs).drop p.length)
    else
      c :: replaceAllF r p fuel cs

/-- Python `s.replace(p, r)` (for the non-empty patterns used in the code). -/
def replaceAll (p r s : List Char) : List Char := replaceAllF r p s.length s

/-- ASCII-case-insensitive prefix test (models `re.IGNORECASE` matching of
the ASCII literals `[Music]`, `[Applause]`). -/
def ciPrefixOf : List Char → List Char → Bool
  | [], _ => true
  | _ :: _, [] => false
  | m :: ms, c :: cs => (m.toLower = c.toLower) && ciPrefixOf ms cs

/-- Case-insensitive substring occurrence. -/
def occursCIB (m : List Char) : List Char → Bool
  | [] => ciPrefixOf m []
  | c :: cs => ciPrefixOf m (c :: cs) || occursCIB m cs

/-- Fuel-based core of `re.sub(m, '', s, flags=re.IGNORECASE)` for a literal
pattern `m`. -/
def removeCIF (m : List Char) : Nat → List Char → List Char
  | 0, s => s
  | _ + 1, [] => []
  | fuel + 1, c :: cs =>
    if ciPrefixOf m (c :: cs) then
      removeCIF m fuel ((c :: cs).drop m.length)
    else
      c :: removeCIF m fuel cs

/-- `re.sub(m, '', s, flags=re.IGNORECASE)` for a literal pattern `m`. -/
def removeCI (m s : List Char) : List Char := removeCIF m s.length s

/-- `re.sub(r'\s+', ' ', s)`: each maximal run of whitespace becomes one
ASCII space. -/
def squeeze : List Char → List Char
  | [] => []
  | [c] => [if isWS c then ' ' else c]
  | c :: c' :: cs =>
    if isWS c && isWS c' then squeeze (c' :: cs)
    else (if isWS c then ' ' else c) :: squeeze (c' :: cs)

/-- Python `str.strip()`. -/
def pyStrip (s : List Char) : List Char :=
  (((s.dropWhile isWS).reverse).dropWhile isWS).reverse

def entAmp : List Char := ("&amp;").toList
def entLt : List Char := ("&lt;").toList
def entGt : List Char := ("&gt;").toList
def entQuot : List Char := ("&quot;").toList
def entNum39 : List Char := ("&#39;").toList
def entApos : List Char := ("&apos;").toList
def entNbsp : List Char := ("&nbsp;").toList
def ampR : List Char := ('&' :: [])
def ltR : List Char := ('<' :: [])
def gtR : List Char := ('>' :: [])
def quotR : List Char := ('"' :: [])
def aposR : List Char := ('\'' :: [])
def spaceR : List Char := (' ' :: [])
def nbspP : List Char := ('\xa0' :: [])
def nlP : List Char := ('\n' :: [])
def musicM : List Char := ("[Music]").toList
def applauseM : List Char := ("[Applause]").toList

/-- The cleaning pipeline of `CaptionScraper._clean_text`
(`src/server/caption_scraper.py` lines 295-316), applied to non-empty input:
entity decoding, non-breaking-space and newline replacement, whitespace
collapse, case-insensitive `[Music]`/`[Applause]` removal, strip. -/
def cleanPipe (s : List Char) : List Char :=
  pyStrip (removeCI applauseM (removeCI musicM (squeeze
    (replaceAll nlP spaceR (replaceAll nbspP spaceR
      (replaceAll entNbsp spaceR (replaceAll entApos aposR
        (replaceAll entNum39 aposR (replaceAll entQuot quotR
          (replaceAll entGt gtR (replaceAll entLt ltR
            (replaceAll entAmp ampR s))))))))))))

/-- `CaptionScraper._clean_text` (`src/server/caption_scraper.py` 295-316). -/
def clean_text (s : List Char) : List Char :=
  if s = [] then [] else cleanPipe s

example :
    clean_text (("&amp;amp;").toList) = ("&amp;").toList := by decide

example :
    clean_text (clean_text (("&amp;amp;").toList)) = ("&").toList := by decide

/-! ## The timed-text XML fragment scanner

`re.findall(r'<text[^>]*>([^<]+)</text>', xml_content, re.DOTALL)` as used by
`CaptionScraper._parse_xml_captions` (`src/server/caption_scraper.py` 223) and
`extract_complete_transcript` (`src/server/complete_caption_scraper.py` 149).
The regex is deterministic: after the literal `<text`, `[^>]*>` consumes up to
the first `>`, then `([^<]+)` captures a non-empty maximal run of non-`<`
characters which must be followed by the literal `</text>`. -/

def openTextLit : List Char := ("<text").toList
def closeTextLit : List Char := ("</text>").toList

/-- Attempt the regex `<text[^>]*>([^<]+)</text>` at the start of `s`;
on success return the capture and the rest of the input after the match. -/
def tryMatch (s : List Char) : Option (List Char × List Char) :=
  match dropLit openTextLit s with
  | none => none
  | some r1 =>
    match r1.dropWhile (fun c => c != '>') with
    | [] => none
    | _ :: r3 =>
      match r3.takeWhile (fun c => c != '<') with
      | [] => none
      | c0 :: crest =>
        match dropLit closeTextLit (r3.dropWhile (fun c => c != '<')) with
        | none => none
        | some r4 => some (c0 :: crest, r4)

/-- Fuel-based `findall` scan: non-overlapping matches, left to right,
advancing one character on failure. -/
def scanTextsF : Nat → List Char → List (List Char)
  | 0, _ => []
  | _ + 1, [] => []
  | fuel + 1, c :: cs =>
    match tryMatch (c :: cs) with
    | some (t, rest) => t :: scanTextsF fuel rest
    | none => scanTextsF fuel cs

/-- The list of captures of `re.findall(r'<text[^>]*>([^<]+)</text>', s)`. -/
def xmlTextMatches (s : List Char) : List (List Char) := scanTextsF s.length s

/-- A timed-text XML document built from a list of `(attributes, content)`
elements: `<transcript><text A1>C1</text>...<text An>Cn</text></transcript>`. -/
def renderElems : List (List Char × List Char) → List Char
  | [] => ("</transcript>").toList
  | (a, c) :: rest =>
    openTextLit ++ (a ++ ('>' :: (c ++ (closeTextLit ++ renderElems rest))))

def renderXML (items : List (List Char × List Char)) : List Char :=
  ("<transcript>").toList ++ renderElems items

example :
    xmlTextMatches ((renderXML [((" a=b").toList, ("hi").toList),
      ([], ("yo").toList)])) = [("hi").toList, ("yo").toList] := by decide

example : xmlTextMatches ((renderXML [([], [])])) = [] := by decide

/-! ## JSON caption parsing

`json.loads` is modelled as an external boundary: a payload is either
malformed (`none`, i.e. `json.JSONDecodeError`) or a parsed JSON value.
`CaptionScraper._parse_json_captions` (`src/server/caption_scraper.py`
253-293) only catches `JSONDecodeError`; the dynamic operations `'k' in v`,
`v['k']` and `for x in v` raise `TypeError`/`KeyError` on values of the
wrong shape, modelled by `Except Unit`. -/

inductive JVal where
  | null : JVal
  | bool : Bool → JVal
  | num : Int → JVal
  | str : List Char → JVal
  | arr : List JVal → JVal
  | obj : List (List Char × JVal) → JVal

/-- First-match association lookup (JSON objects have unique keys). -/
def jlookup (k : List Char) : List (List Char × JVal) → Option JVal
  | [] => none
  | (k', v) :: kvs => if k' = k then some v else jlookup k kvs

/-- Python `==` between a string literal and a JSON value. -/
def pyEqStr (k : List Char) : JVal → Bool
  | .str s => s = k
  | _ => false

/-- Python truthiness of a JSON value. -/
def pyTruthy : JVal → Bool
  | .null => false
  | .bool b => b
  | .num n => n != 0
  | .str s => !s.isEmpty
  | .arr xs => !xs.isEmpty
  | .obj kvs => !kvs.isEmpty

/-- Python `k in v`: key test on dicts, membership on lists, substring test
on strings; `TypeError` on other values. -/
def pyContains (k : List Char) : JVal → Except Unit Bool
  | .obj kvs => .ok ((jlookup k kvs).isSome)
  | .arr xs => .ok (xs.any (pyEqStr k))
  | .str s => .ok (occursB k s)
  | _ => .error ()

/-- Python `v[k]` for a string key: dict indexing (`KeyError` when absent);
`TypeError` on any non-dict value. -/
def pyIndexStr (k : List Char) : JVal → Except Unit JVal
  | .obj kvs =>
    match jlookup k kvs with
    | some v => .ok v
    | none => .error ()
  | _ => .error ()

/-- Python `for x in v`: elements of a list, one-character strings of a
string, keys of a dict; `TypeError` otherwise. -/
def pyIter : JVal → Except Unit (List JVal)
  | .arr xs => .ok xs
  | .str s => .ok (s.map (fun c => JVal.str [c]))
  | .obj kvs => .ok (kvs.map (fun kv => JVal.str kv.1))
  | _ => .error ()

def segsKey : List Char := ("segs").toList
def utf8Key : List Char := ("utf8").toList
def eventsKey : List Char := ("events").toList
def bodyKey : List Char := ("body").toList

/-- The inner loop `for seg in event['segs']: if 'utf8' in seg:
text_parts.append(seg['utf8'])`. -/
def partsOfSegs : List JVal → Except Unit (List JVal)
  | [] => .ok []
  | s :: ss =>
    match pyContains utf8Key s with
    | .error u => .error u
    | .ok h =>
      if h then
        match pyIndexStr utf8Key s with
        | .error u => .error u
        | .ok v =>
          match partsOfSegs ss with
          | .error u => .error u
          | .ok rest => .ok (v :: rest)
      else partsOfSegs ss

/-- Processing of one event (lines 262-268): segments' `utf8` fields when
the event carries `segs`, otherwise a direct `utf8` field. -/
def partsOfEvent (e : JVal) : Except Unit (List JVal) :=
  match pyContains segsKey e with
  | .error u => .error u
  | .ok hs =>
    if hs then
      match pyIndexStr segsKey e with
      | .error u => .error u
      | .ok sv =>
        match pyIter sv with
        | .error u => .error u
        | .ok segs => partsOfSegs segs
    else
      match pyContains utf8Key e with
      | .error u => .error u
      | .ok hu =>
        if hu then
          match pyIndexStr utf8Key e with
          | .error u => .error u
          | .ok v => .ok [v]
        else .ok []

/-- The event loop of `_parse_json_captions` (lines 261-268). -/
def partsOfEvents : List JVal → Except Unit (List JVal)
  | [] => .ok []
  | e :: es =>
    match partsOfEvent e with
    | .error u => .error u
    | .ok ps =>
      match partsOfEvents es with
      | .error u => .error u
      | .ok rest => .ok (ps ++ rest)

/-- The `body` loop (lines 277-282): dict items contribute their `utf8`
value, string items contribute themselves. -/
def partsOfBody : List JVal → List JVal
  | [] => []
  | .obj kvs :: items =>
    (match jlookup utf8Key kvs with
     | some v => [v]
     | none => []) ++ partsOfBody items
  | .str s :: items => JVal.str s :: partsOfBody items
  | _ :: items => partsOfBody items

def joinWith (sep : List Char) : List (List Char) → List Char
  | [] => []
  | [s] => s
  | s :: s' :: ss => s ++ sep ++ joinWith sep (s' :: ss)

/-- `[self._clean_text(text) for text in text_parts if text]`: keep truthy
parts, clean each; a truthy non-string raises (`_clean_text` calls
`str.replace`). -/
def cleanedParts : List JVal → Except Unit (List (List Char))
  | [] => .ok []
  | p :: ps =>
    if pyTruthy p then
      match p with
      | .str s =>
        match cleanedParts ps with
        | .error u => .error u
        | .ok rest => .ok (clean_text s :: rest)
      | _ => .error ()
    else
      cleanedParts ps

/-- Lines 276-289: the `body` fallback branch and the final `return None`. -/
def bodyBranch (d : JVal) : Except Unit (Option (List Char)) :=
  match pyContains bodyKey d with
  | .error u => .error u
  | .ok hb =>
    if hb then
      match pyIndexStr bodyKey d with
      | .error u => .error u
      | .ok bv =>
        match bv with
        | .arr items =>
          if (partsOfBody items).isEmpty then .ok none
          else
            match cleanedParts (partsOfBody items) with
            | .error u => .error u
            | .ok strs => .ok (some (joinWith spaceR strs))
        | _ => .ok none
    else .ok none

/-- `CaptionScraper._parse_json_captions` (`src/server/caption_scraper.py`
253-293), over the result of `json.loads` (`none` = `JSONDecodeError`).
`.error ()` models an uncaught exception escaping the function. -/
def parseJsonCaptions (v : Option JVal) : Except Unit (Option (List Char)) :=
  match v with
  | none => .ok none
  | some d =>
    match pyContains eventsKey d with
    | .error u => .error u
    | .ok he =>
      if he then
        match pyIndexStr eventsKey d with
        | .error u => .error u
        | .ok ev =>
          match pyIter ev with
          | .error u => .error u
          | .ok evs =>
            match partsOfEvents evs with
            | .error u => .error u
            | .ok parts =>
              if parts.isEmpty then bodyBranch d
              else
                match cleanedParts parts with
                | .error u => .error u
                | .ok strs => .ok (some (joinWith spaceR strs))
      else bodyBranch d

example :
    parseJsonCaptions (some (.obj [(eventsKey,
      .arr [.obj [(segsKey, .arr [.obj [(utf8Key, .str (("hi").toList))],
                                  .obj [(utf8Key, .str (("yo").toList))]])],
            .obj [(utf8Key, .str (("zz").toList))]])]))
      = .ok (some (("hi yo zz").toList)) := by rfl

example : parseJsonCaptions (some (.num 5)) = .error () := by rfl

example : parseJsonCaptions none = .ok none := by rfl

/-! ## Caption track selection

Two resolvers exist.  `CaptionScraper._extract_caption_data`
(`src/server/caption_scraper.py` 171-190) breaks out of the loop at the
first English manual track and otherwise remembers the first English track.
`extract_complete_transcript` (`src/server/complete_caption_scraper.py`
102-123) never breaks: every English track with `kind != 'asr'` overwrites
the current candidate, and an empty candidate falls back to the first track
of the list. -/

structure Track where
  languageCode : List Char
  kind : Option (List Char)
  baseUrl : Option (List Char)
  deriving DecidableEq

def asrStr : List Char := ("asr").toList
def enPre : List Char := ("en").toList

/-- `track.get('languageCode', '').startswith('en')`. -/
def enB (t : Track) : Bool := enPre.isPrefixOf t.languageCode

/-- `track.get('kind') != 'asr'` (manual track). -/
def manualB (t : Track) : Bool := t.kind != some asrStr

def enManB (t : Track) : Bool := enB t && manualB t

/-- Loop of `_extract_caption_data` lines 172-179 (with `break`). -/
def selA (acc : Option Track) : List Track → Option Track
  | [] => acc
  | t :: ts =>
    if enB t then
      if manualB t then some t
      else
        match acc with
        | none => selA (some t) ts
        | some a => selA (some a) ts
    else selA acc ts

def selectTrackA (ts : List Track) : Option Track := selA none ts

/-- Loop of `extract_complete_transcript` lines 103-118 (no `break`). -/
def selB (acc : Option Track) : List Track → Option Track
  | [] => acc
  | t :: ts =>
    if enB t && (acc.isNone || manualB t) then selB (some t) ts
    else selB acc ts

/-- The selection including the lines 121-123 fallback to the first track. -/
def selectTrackB (ts : List Track) : Option Track :=
  match selB none ts with
  | some t => some t
  | none => ts.head?

example :
    selectTrackA [⟨enPre, some asrStr, some (("u1").toList)⟩,
      ⟨enPre, none, some (("u2").toList)⟩,
      ⟨("fr").toList, none, some (("u3").toList)⟩]
      = some ⟨enPre, none, some (("u2").toList)⟩ := by decide

example :
    selectTrackB [⟨enPre, none, some (("u1").toList)⟩,
      ⟨enPre, none, some (("u2").toList)⟩]
      = some ⟨enPre, none, some (("u2").toList)⟩ := by decide

example : selectTrackA [⟨("fr").toList, none, some (("u3").toList)⟩] = none := by
  decide

example :
    selectTrackB [⟨("fr").toList, none, some (("u3").toList)⟩]
      = some ⟨("fr").toList, none, some (("u3").toList)⟩ := by decide

/-! ## Transcript records and the extraction operations -/

structure TranscriptRecord where
  transcript : List Char
  title : List Char
  date : List Char
  channel : List Char
  videoId : List Char
  extractionMethod : Option (List Char)
  duration : Option Nat
  deriving DecidableEq

/-- Python `a or default` for an optional / possibly-empty string. -/
def pyOr (o : Option (List Char)) (d : List Char) : List Char :=
  match o with
  | some s => if s = [] then d else s
  | none => d

/-- Result of `_get_video_metadata` style resolvers: always complete. -/
structure Meta where
  title : List Char
  date : List Char
  channel : List Char
  duration : Option Nat
  deriving DecidableEq

def webScrapingTag : List Char := ("web_scraping").toList
def apiCaptionsTag : List Char := ("api_captions").toList
def videoPre : List Char := ("Video ").toList
def defaultDate : List Char := ("2024-01-01").toList
def unknownChannel : List Char := ("Unknown Channel").toList

/-- Lines 22-26: strategy 1's result, falling back to strategy 2 only when
strategy 1 produced a falsy (absent or empty) text. -/
def chooseStrategy (s1 s2 : Option (List Char)) : Option (List Char) :=
  match s1 with
  | some t => if t = [] then s2 else some t
  | none => s2

/-- `CaptionScraper.extract_captions_from_page`
(`src/server/caption_scraper.py` 16-45).  `s1` is the result of
`_try_direct_timedtext_api`, `s2` that of `_try_transcript_page_scraping`;
`title`/`date`/`channel` come from `_get_basic_metadata` (`none` for a
field the probes could not determine). -/
def extract_captions_from_page (s1 s2 : Option (List Char))
    (title date channel : Option (List Char)) (vid : List Char) :
    Option TranscriptRecord :=
  match chooseStrategy s1 s2 with
  | none => none
  | some t =>
    if t = [] ∨ (pyStrip t).length < 50 then none
    else some
      { transcript := t
        title := pyOr title (videoPre ++ vid)
        date := pyOr date defaultDate
        channel := pyOr channel unknownChannel
        videoId := vid
        extractionMethod := some webScrapingTag
        duration := none }

def blockPhrase : List Char := ("IP belonging to a cloud provider").toList
def blockedWord : List Char := ("blocked").toList

/-- Outcome of the external `YouTubeTranscriptApi.get_transcript` call
followed by `_combine_transcript_segments`: either the combined text or the
raised error's message. -/
inductive ApiOutcome where
  | ok (full : List Char)
  | err (msg : List Char)

/-- `YouTubeHandler.extract_transcript`
(`src/attached_assets/youtube_handler.py` 100-145).  On a blocking-
classified error the web-scraping fallback `extract_captions_from_page`
runs with its own inputs; any other raised error is a failure (`none`). -/
def extract_transcript (o : ApiOutcome) (m : Meta) (vid : List Char)
    (s1 s2 ti da ch : Option (List Char)) : Option TranscriptRecord :=
  match o with
  | .ok full =>
    if full = [] ∨ (pyStrip full).length < 50 then none
    else some
      { transcript := full
        title := m.title
        date := m.date
        channel := m.channel
        videoId := vid
        extractionMethod := none
        duration := m.duration }
  | .err msg =>
    if occursB blockPhrase msg || occursB blockedWord (msg.map Char.toLower)
    then extract_captions_from_page s1 s2 ti da ch vid
    else none

/-- `YouTubeHandler.extract_transcript_with_api`
(`src/attached_assets/youtube_handler.py` 480-549): `srt` is the output of
`_parse_srt_content` on the downloaded caption content. -/
def extract_transcript_with_api (srt : List Char) (m : Meta)
    (vid : List Char) : Option TranscriptRecord :=
  if srt = [] ∨ (pyStrip srt).length < 50 then none
  else some
    { transcript := srt
      title := m.title
      date := m.date
      channel := m.channel
      videoId := vid
      extractionMethod := some apiCaptionsTag
      duration := m.duration }

/-- Lines 162-171: join, `html.unescape`, non-breaking-space and newline
replacement, whitespace collapse, strip. -/
def completeNormalize (unescape : List Char → List Char)
    (ms : List (List Char)) : List Char :=
  pyStrip (squeeze (replaceAll nlP spaceR
    (replaceAll nbspP spaceR (unescape (joinWith spaceR ms)))))

/-- Lines 151-180: the text-match list (falling back to the alternative
format when empty), normalization, and the 50-character guard. -/
def extract_complete_core (unescape : List Char → List Char)
    (ms : List (List Char)) : Option (List Char) :=
  if ms = [] then none
  else if (completeNormalize unescape ms).length < 50 then none
  else some (completeNormalize unescape ms)

/-- `extract_complete_transcript`
(`src/server/complete_caption_scraper.py` 148-180), from the regex matches
onward: `found` is the primary `findall` result on the caption payload,
`altFound` the result of `extract_captions_from_alternative_format`, and
`unescape` models `html.unescape`. -/
def extract_complete_transcript (unescape : List Char → List Char)
    (found altFound : List (List Char)) : Option (List Char) :=
  extract_complete_core unescape (if found = [] then altFound else found)

/-! ## Metadata resolution

`YouTubeHandler._get_video_metadata`
(`src/attached_assets/youtube_handler.py` 345-401).  The page fetch is an
explicit input (`none` = request raised); `uesc` models
`title.encode().decode('unicode_escape')` and `pdate` the
`datetime.fromisoformat`/`strftime` round-trip (`none` = parse failure). -/

/-- Attempt `LIT([^"]+)"` at the start of `s`: consume the literal, capture
a non-empty run of non-quote characters terminated by a quote. -/
def tryCapture (lit : List Char) (s : List Char) : Option (List Char) :=
  match dropLit lit s with
  | none => none
  | some r =>
    match r.takeWhile (fun c => c != '"') with
    | [] => none
    | c0 :: cap =>
      match r.dropWhile (fun c => c != '"') with
      | [] => none
      | _ :: _ => some (c0 :: cap)

/-- `re.search` for the pattern `LIT([^"]+)"`: leftmost successful match. -/
def findCapture (lit : List Char) : List Char → Option (List Char)
  | [] => none
  | c :: cs =>
    match tryCapture lit (c :: cs) with
    | some cap => some cap
    | none => findCapture lit cs

def titleLit : List Char := ("\"title\":\"").toList
def dateLit : List Char := ("\"uploadDate\":\"").toList
def authorLit : List Char := ("\"author\":\"").toList

/-- Python word character (`\w`), restricted to its ASCII part. -/
def isPyWord (c : Char) : Bool := c.isAlphanum || c = '_'

def keepTitleChar (c : Char) : Bool :=
  isPyWord c || isWS c || c = '-' || c = ':' || c = '.' || c = ',' ||
    c = '!' || c = '?'

/-- `YouTubeHandler._clean_title` (`src/attached_assets/youtube_handler.py`
403-412). -/
def clean_title (t : List Char) : List Char :=
  let t := t.filter keepTitleChar
  let t := if 200 < t.length then t.take 200 ++ ("...").toList else t
  pyStrip t

def fallbackTitlePre : List Char := ("Coffee with Scott Adams - Episode ").toList
def fallbackChannel : List Char := ("Scott Adams").toList

/-- The dict literal at lines 396-401 (also 78-83): returned whenever the
page fetch fails or anything in the success path raises. -/
def fallbackMeta (vid now : List Char) : Meta :=
  { title := fallbackTitlePre ++ vid
    date := now
    channel := fallbackChannel
    duration := none }

/-- `YouTubeHandler._get_video_metadata`
(`src/attached_assets/youtube_handler.py` 345-401). -/
def get_video_metadata (uesc : List Char → List Char)
    (pdate : List Char → Option (List Char)) (now vid : List Char)
    (fetch : Option (Nat × List Char)) : Meta :=
  match fetch with
  | some (status, html) =>
    if status = 200 then
      let rawTitle := (findCapture titleLit html).getD (videoPre ++ vid)
      let date := match findCapture dateLit html with
        | some d => (pdate d).getD now
        | none => now
      { title := clean_title (uesc rawTitle)
        date := date
        channel := (findCapture authorLit html).getD unknownChannel
        duration := none }
    else fallbackMeta vid now
  | none => fallbackMeta vid now

/-! ## Transcript enhancement

`TranscriptProcessor.enhance_transcript`
(`src/attached_assets/transcript_processor.py` 19-40): per-chunk loop where
a failing `_process_chunk` call (modelled by `enhance` returning `none`)
leaves the original chunk in place. -/

def enhanceChunks (enhance : List Char → Option (List Char))
    (chunks : List (List Char)) : List (List Char) :=
  chunks.map (fun c => (enhance c).getD c)

def chunkSep : List Char := ('\n' :: '\n' :: [])

/-- The tail of `enhance_transcript`: loop plus `"\n\n".join`. -/
def enhance_transcript_chunks (enhance : List Char → Option (List Char))
    (chunks : List (List Char)) : List Char :=
  joinWith chunkSep (enhanceChunks enhance chunks)

/-! ## Lemmas about stripping -/

lemma dropWhile_head_not (p : Char → Bool) (l : List Char) :
    ∀ c, (l.dropWhile p).head? = some c → p c = false := by
  induction l with
  | nil => intro c h; simp [List.dropWhile] at h
  | cons a as ih =>
    intro c h
    by_cases hpa : p a
    · rw [List.dropWhile_cons_of_pos hpa] at h
      exact ih c h
    · rw [List.dropWhile_cons_of_neg hpa] at h
      simp only [List.head?_cons, Option.some.injEq] at h
      subst h
      simpa using hpa

lemma dropWhile_eq_self_of_head (p : Char → Bool) (l : List Char)
    (h : ∀ c, l.head? = some c → p c = false) : l.dropWhile p = l := by
  cases l with
  | nil => rfl
  | cons a as =>
    have := h a rfl
    simp [List.dropWhile, this]

lemma getLast?_dropWhile (p : Char → Bool) (l : List Char)
    (h : l.dropWhile p ≠ []) : (l.dropWhile p).getLast? = l.getLast? := by
  induction l with
  | nil => simp at h
  | cons a as ih =>
    by_cases hpa : p a
    · rw [List.dropWhile_cons_of_pos hpa] at h ⊢
      rcases as with _ | ⟨b, bs⟩
      · simp [List.dropWhile] at h
      · rw [List.getLast?_cons_cons]
        exact ih h
    · rw [List.dropWhile_cons_of_neg hpa]

lemma dropWhile_dropWhile (p : Char → Bool) (l : List Char) :
    (l.dropWhile p).dropWhile p = l.dropWhile p := by
  induction l with
  | nil => rfl
  | cons a as ih =>
    by_cases hpa : p a
    · rw [List.dropWhile_cons_of_pos hpa]
      exact ih
    · rw [List.dropWhile_cons_of_neg hpa, List.dropWhile_cons_of_neg hpa]

/-- Python `strip` is idempotent. -/
lemma pyStrip_idem (s : List Char) : pyStrip (pyStrip s) = pyStrip s := by
  unfold pyStrip
  have h1 : (((s.dropWhile isWS).reverse.dropWhile isWS).reverse).dropWhile
      isWS = ((s.dropWhile isWS).reverse.dropWhile isWS).reverse := by
    apply dropWhile_eq_self_of_head
    intro c hc
    rw [List.head?_reverse] at hc
    have hvne : (s.dropWhile isWS).reverse.dropWhile isWS ≠ [] := by
      intro h0
      rw [h0] at hc
      simp at hc
    rw [getLast?_dropWhile isWS _ hvne, List.getLast?_reverse] at hc
    exact dropWhile_head_not isWS s c hc
  rw [h1, List.reverse_reverse, dropWhile_dropWhile]

/-- C1 helper: a record out of `extract_captions_from_page` has a trimmed
transcript of at least 50 characters. -/
lemma fcp_min (s1 s2 ti da ch : Option (List Char)) (vid : List Char)
    (r : TranscriptRecord)
    (h : extract_captions_from_page s1 s2 ti da ch vid = some r) :
    50 ≤ (pyStrip r.transcript).length := by
  unfold extract_captions_from_page at h
  split at h
  · exact absurd h (by simp)
  · split at h
    · exact absurd h (by simp)
    · rename_i t hcond
      have hr := Option.some.inj h
      subst hr
      rcases not_or.mp hcond with ⟨-, hlen⟩
      simpa using Nat.le_of_not_lt hlen

/-- C1: every operation that assembles a transcript result checks the
50-character trimmed-length threshold; no success carries a shorter
transcript.  The four conjuncts cover `extract_captions_from_page`,
`extract_transcript` (including its web-scraping fallback on a blocking
error), `extract_transcript_with_api` and `extract_complete_transcript`. -/
theorem claim_C1_record_min_length :
    (∀ s1 s2 ti da ch vid r,
      extract_captions_from_page s1 s2 ti da ch vid = some r →
        50 ≤ (pyStrip r.transcript).length) ∧
    (∀ o m vid s1 s2 ti da ch r,
      extract_transcript o m vid s1 s2 ti da ch = some r →
        50 ≤ (pyStrip r.transcript).length) ∧
    (∀ srt m vid r,
      extract_transcript_with_api srt m vid = some r →
        50 ≤ (pyStrip r.transcript).length) ∧
    (∀ u found alt t,
      extract_complete_transcript u found alt = some t →
        50 ≤ (pyStrip t).length) := by
  refine ⟨fcp_min, ?_, ?_, ?_⟩
  · intro o m vid s1 s2 ti da ch r h
    rcases o with full | msg
    · simp only [extract_transcript] at h
      split at h
      · exact absurd h (by simp)
      · rename_i hcond
        have hr := Option.some.inj h
        subst hr
        rcases not_or.mp hcond with ⟨-, hlen⟩
        simpa using Nat.le_of_not_lt hlen
    · simp only [extract_transcript] at h
      split at h
      · exact fcp_min s1 s2 ti da ch vid r h
      · exact absurd h (by simp)
  · intro srt m vid r h
    unfold extract_transcript_with_api at h
    split at h
    · exact absurd h (by simp)
    · rename_i hcond
      have hr := Option.some.inj h
      subst hr
      rcases not_or.mp hcond with ⟨-, hlen⟩
      simpa using Nat.le_of_not_lt hlen
  · intro u found alt t h
    unfold extract_complete_transcript at h
    generalize (if found = [] then alt else found) = ms at h
    unfold extract_complete_core at h
    split at h
    · exact absurd h (by simp)
    · split at h
      · exact absurd h (by simp)
      · rename_i hlen
        have ht := Option.some.inj h
        subst ht
        rw [completeNormalize, pyStrip_idem]
        exact Nat.le_of_not_lt hlen

/-- Witness for C1: all four operations applied at concrete successful
inputs. -/
theorem claim_C1_record_min_length_witness :
    50 ≤ (pyStrip (List.replicate 60 'a')).length ∧
    50 ≤ (pyStrip (List.replicate 55 'b')).length ∧
    50 ≤ (pyStrip (List.replicate 52 'c')).length ∧
    50 ≤ (pyStrip (List.replicate 51 'd')).length := by
  refine ⟨?_, ?_, ?_, ?_⟩
  · exact claim_C1_record_min_length.1 (some (List.replicate 60 'a')) none
      none none none []
      { transcript := List.replicate 60 'a'
        title := videoPre
        date := defaultDate
        channel := unknownChannel
        videoId := []
        extractionMethod := some webScrapingTag
        duration := none } (by decide)
  · exact claim_C1_record_min_length.2.1 (.ok (List.replicate 55 'b'))
      ⟨[], [], [], none⟩ [] none none none none none
      { transcript := List.replicate 55 'b'
        title := []
        date := []
        channel := []
        videoId := []
        extractionMethod := none
        duration := none } (by decide)
  · exact claim_C1_record_min_length.2.2.1 (List.replicate 52 'c')
      ⟨[], [], [], none⟩ []
      { transcript := List.replicate 52 'c'
        title := []
        date := []
        channel := []
        videoId := []
        extractionMethod := some apiCaptionsTag
        duration := none } (by decide)
  · exact claim_C1_record_min_length.2.2.2 id [List.replicate 51 'd'] []
      (List.replicate 51 'd') (by decide)

/-- C9: the enhancement loop yields exactly one output chunk per input
chunk, in order, and on a failing enhancement call the original chunk is
retained unmodified. -/
theorem claim_C9_enhance_retains_chunks :
    ∀ (e : List Char → Option (List Char)) (chunks : List (List Char)),
      (enhanceChunks e chunks).length = chunks.length ∧
      ∀ i (h1 : i < chunks.length)
        (h2 : i < (enhanceChunks e chunks).length),
        e (chunks.get ⟨i, h1⟩) = none →
          (enhanceChunks e chunks).get ⟨i, h2⟩ = chunks.get ⟨i, h1⟩ := by
  intro e chunks
  constructor
  · simp [enhanceChunks]
  · intro i h1 h2 hfail
    simp only [enhanceChunks, List.get_eq_getElem, List.getElem_map]
    simp only [List.get_eq_getElem] at hfail
    rw [hfail]
    rfl

/-- Witness for C9 at a concrete failing enhancement service. -/
theorem claim_C9_enhance_retains_chunks_witness :
    (enhanceChunks (fun _ => none) [("abc").toList]).length = 1 ∧
    (enhanceChunks (fun _ => none) [("abc").toList]).get ⟨0, by decide⟩
      = ("abc").toList := by
  refine ⟨(claim_C9_enhance_retains_chunks (fun _ => none)
    [("abc").toList]).1, ?_⟩
  exact (claim_C9_enhance_retains_chunks (fun _ => none)
    [("abc").toList]).2 0 (by decide) (by decide) rfl

/-- C10: when strategy 1 returns a non-empty text whose trimmed length is
below 50, `extract_captions_from_page` returns `None` without consulting
strategy 2 (the result is independent of the strategy-2 outcome). -/
theorem claim_C10_no_fallback_on_short :
    ∀ (t : List Char) (s2 s2' ti da ch : Option (List Char))
      (vid : List Char), t ≠ [] → (pyStrip t).length < 50 →
      extract_captions_from_page (some t) s2 ti da ch vid = none ∧
      extract_captions_from_page (some t) s2 ti da ch vid =
        extract_captions_from_page (some t) s2' ti da ch vid := by
  intro t s2 s2' ti da ch vid ht hlen
  have hcs : ∀ s2'' : Option (List Char), chooseStrategy (some t) s2'' =
      some t := by
    intro s2''
    simp [chooseStrategy, ht]
  have hnone : ∀ s2'' : Option (List Char),
      extract_captions_from_page (some t) s2'' ti da ch vid = none := by
    intro s2''
    unfold extract_captions_from_page
    rw [hcs s2'']
    simp [hlen]
  exact ⟨hnone s2, by rw [hnone s2, hnone s2']⟩

/-- Witness for C10: a 5-character strategy-1 result suppresses a long
strategy-2 result. -/
theorem claim_C10_no_fallback_on_short_witness :
    extract_captions_from_page (some (("short").toList))
      (some (List.replicate 60 'a')) none none none [] = none ∧
    extract_captions_from_page (some (("short").toList))
      (some (List.replicate 60 'a')) none none none [] =
      extract_captions_from_page (some (("short").toList)) none none none
        none [] := by
  exact claim_C10_no_fallback_on_short (("short").toList)
    (some (List.replicate 60 'a')) none none none none [] (by decide)
    (by decide)

/-! ## Track-resolver characterizations -/

lemma getLast?_cons_eq (a : Track) (l : List Track) :
    (a :: l).getLast? = match l.getLast? with
      | some x => some x
      | none => some a := by
  cases l with
  | nil => rfl
  | cons b bs =>
    rw [List.getLast?_cons_cons]
    rcases h : (b :: bs).getLast? with - | x
    · exact absurd h (by simp)
    · rfl

/-- The `_extract_caption_data` loop returns the first English manual track
when one exists, else the first English track, else the accumulator. -/
lemma selA_spec (ts : List Track) : ∀ acc,
    selA acc ts = match ts.find? enManB with
      | some t => some t
      | none =>
        match acc with
        | some a => some a
        | none => ts.find? enB := by
  induction ts with
  | nil => intro acc; cases acc <;> rfl
  | cons t ts ih =>
    intro acc
    by_cases he : enB t
    · by_cases hm : manualB t
      · have hman : enManB t = true := by simp [enManB, he, hm]
        simp [selA, he, hm, List.find?_cons_of_pos _ hman]
      · have hman : enManB t = false := by simp [enManB, hm]
        rw [List.find?_cons_of_neg _ (by simp [hman]),
          List.find?_cons_of_pos _ he]
        cases acc with
        | none =>
          simp only [selA, he, hm, if_true, if_false]
          rw [ih]
          rcases List.find? enManB ts with - | x <;> simp
        | some a =>
          simp only [selA, he, hm, if_true, if_false]
          rw [ih]
          rcases List.find? enManB ts with - | x <;> simp
    · have hman : enManB t = false := by simp [enManB, he]
      rw [List.find?_cons_of_neg _ (by simp [hman]),
        List.find?_cons_of_neg _ (by simp [he])]
      have hsel : selA acc (t :: ts) = selA acc ts := by
        simp [selA, he]
      rw [hsel, ih]

/-- The `extract_complete_transcript` loop returns the last English manual
track when one exists, else the first English track, else the
accumulator. -/
lemma selB_spec (ts : List Track) : ∀ acc,
    selB acc ts = match (ts.filter enManB).getLast? with
      | some t => some t
      | none =>
        match acc with
        | some a => some a
        | none => ts.find? enB := by
  induction ts with
  | nil => intro acc; cases acc <;> rfl
  | cons t ts ih =>
    intro acc
    by_cases he : enB t
    · by_cases hm : manualB t
      · have hman : enManB t = true := by simp [enManB, he, hm]
        rw [List.filter_cons_of_pos hman, getLast?_cons_eq]
        have hsel : selB acc (t :: ts) = selB (some t) ts := by
          cases acc <;> simp [selB, he, hm]
        rw [hsel, ih]
        rcases (ts.filter enManB).getLast? with - | x <;> rfl
      · have hman : enManB t = false := by simp [enManB, hm]
        rw [List.filter_cons_of_neg (by simp [hman]),
          List.find?_cons_of_pos _ he]
        cases acc with
        | none =>
          have hsel : selB none (t :: ts) = selB (some t) ts := by
            simp [selB, he]
          rw [hsel, ih]
        | some a =>
          have hsel : selB (some a) (t :: ts) = selB (some a) ts := by
            simp [selB, he, hm]
          rw [hsel, ih]
    · have hman : enManB t = false := by simp [enManB, he]
      rw [List.filter_cons_of_neg (by simp [hman]),
        List.find?_cons_of_neg _ (by simp [he])]
      have hsel : selB acc (t :: ts) = selB acc ts := by
        cases acc <;> simp [selB, he]
      rw [hsel, ih]

lemma selectTrackA_spec (ts : List Track) :
    selectTrackA ts = match ts.find? enManB with
      | some t => some t
      | none => ts.find? enB := by
  rw [selectTrackA, selA_spec]

lemma selectTrackB_spec (ts : List Track) :
    selectTrackB ts = match (ts.filter enManB).getLast? with
      | some t => some t
      | none =>
        match ts.find? enB with
        | some t => some t
        | none => ts.head? := by
  rw [selectTrackB, selB_spec]
  rcases (ts.filter enManB).getLast? with - | x
  · rcases ts.find? enB with - | y <;> rfl
  · rfl

/-- C5 (amended): both resolvers prefer English manual tracks over English
auto-generated ones, but the tie-break within the manual tier differs:
`_extract_caption_data` picks the first English manual track in list order,
while `extract_complete_transcript` picks the last one. -/
theorem claim_C5_manual_preference :
    ∀ ts : List Track, (∃ t ∈ ts, enManB t = true) →
      selectTrackA ts = ts.find? enManB ∧
      selectTrackB ts = (ts.filter enManB).getLast? ∧
      (∀ t, selectTrackA ts = some t → enManB t = true) ∧
      (∀ t, selectTrackB ts = some t → enManB t = true) := by
  intro ts hex
  have hfind : ∃ x, ts.find? enManB = some x := by
    rw [← Option.isSome_iff_exists, List.find?_isSome]
    exact hex
  obtain ⟨x, hx⟩ := hfind
  have hfilter : ∃ y, (ts.filter enManB).getLast? = some y := by
    rw [← Option.isSome_iff_exists, List.getLast?_isSome]
    obtain ⟨t, ht, htb⟩ := hex
    intro hempty
    have : t ∈ ts.filter enManB := List.mem_filter.mpr ⟨ht, htb⟩
    rw [hempty] at this
    exact absurd this (by simp)
  obtain ⟨y, hy⟩ := hfilter
  refine ⟨?_, ?_, ?_, ?_⟩
  · rw [selectTrackA_spec, hx]
  · rw [selectTrackB_spec, hy]
  · intro t htt
    rw [selectTrackA_spec, hx] at htt
    simp only [Option.some.injEq] at htt
    subst htt
    exact List.find?_some hx
  · intro t htt
    rw [selectTrackB_spec, hy] at htt
    simp only [Option.some.injEq] at htt
    subst htt
    have hmem : y ∈ (ts.filter enManB).getLast? := Option.mem_def.mpr hy
    obtain ⟨hne, heq⟩ := List.mem_getLast?_eq_getLast hmem
    have : y ∈ ts.filter enManB := by
      rw [heq]
      exact List.getLast_mem hne
    exact (List.mem_filter.mp this).2

/-- Witness for C5 at the spec's example track list
`[{en, auto-generated}, {en, manual}, {fr, manual}]`. -/
theorem claim_C5_manual_preference_witness :
    selectTrackA [⟨enPre, some asrStr, some (("u1").toList)⟩,
        ⟨enPre, none, some (("u2").toList)⟩,
        ⟨("fr").toList, none, some (("u3").toList)⟩] =
      List.find? enManB [⟨enPre, some asrStr, some (("u1").toList)⟩,
        ⟨enPre, none, some (("u2").toList)⟩,
        ⟨("fr").toList, none, some (("u3").toList)⟩] ∧
    selectTrackB [⟨enPre, some asrStr, some (("u1").toList)⟩,
        ⟨enPre, none, some (("u2").toList)⟩,
        ⟨("fr").toList, none, some (("u3").toList)⟩] =
      (List.filter enManB [⟨enPre, some asrStr, some (("u1").toList)⟩,
        ⟨enPre, none, some (("u2").toList)⟩,
        ⟨("fr").toList, none, some (("u3").toList)⟩]).getLast? := by
  have h := claim_C5_manual_preference
    [⟨enPre, some asrStr, some (("u1").toList)⟩,
     ⟨enPre, none, some (("u2").toList)⟩,
     ⟨("fr").toList, none, some (("u3").toList)⟩] (by decide)
  exact ⟨h.1, h.2.1⟩

/-- Counterexample to C5 as stated: with two English manual tracks the
`extract_complete_transcript` resolver selects the second (last) one, not
the first in list order. -/
theorem claim_C5_counterexample :
    selectTrackB [⟨enPre, none, some (("u1").toList)⟩,
        ⟨enPre, none, some (("u2").toList)⟩] =
      some ⟨enPre, none, some (("u2").toList)⟩ ∧
    (⟨enPre, none, some (("u2").toList)⟩ : Track) ≠
      ⟨enPre, none, some (("u1").toList)⟩ := by
  exact ⟨by decide, by decide⟩

/-- C6 (amended): `extract_complete_transcript`'s resolver returns `none`
exactly on the empty track list and falls back to the first track when no
English-prefixed track exists; `_extract_caption_data`'s resolver instead
returns `none` whenever no English-prefixed track exists. -/
theorem claim_C6_fallback_first_track :
    ∀ ts : List Track,
      (selectTrackB ts = none ↔ ts = []) ∧
      ((∀ t ∈ ts, enB t = false) →
        selectTrackB ts = ts.head? ∧ selectTrackA ts = none) := by
  intro ts
  constructor
  · constructor
    · intro hnone
      rw [selectTrackB_spec] at hnone
      rcases h1 : (ts.filter enManB).getLast? with - | x
      · rcases h2 : ts.find? enB with - | y
        · rw [h1, h2] at hnone
          cases ts with
          | nil => rfl
          | cons a as => exact absurd hnone (by simp)
        · rw [h1, h2] at hnone
          exact absurd hnone (by simp)
      · rw [h1] at hnone
        exact absurd hnone (by simp)
    · intro h
      subst h
      rfl
  · intro hno
    have hman : ts.filter enManB = [] := by
      rw [List.filter_eq_nil_iff]
      intro t ht
      simp [enManB, hno t ht]
    have hfind : ts.find? enB = none := by
      rw [List.find?_eq_none]
      intro t ht
      simp [hno t ht]
    constructor
    · rw [selectTrackB_spec, hman, hfind]
      rfl
    · rw [selectTrackA_spec, hfind]
      have : ts.find? enManB = none := by
        rw [List.find?_eq_none]
        intro t ht
        simp [enManB, hno t ht]
      rw [this]

/-- Witness for C6 at the spec's example: a lone `{fr, manual}` track. -/
theorem claim_C6_fallback_first_track_witness :
    (selectTrackB [⟨("fr").toList, none, some (("u3").toList)⟩] = none ↔
      [⟨("fr").toList, none, some (("u3").toList)⟩] = ([] : List Track)) ∧
    selectTrackB [⟨("fr").toList, none, some (("u3").toList)⟩] =
      [⟨("fr").toList, none, some (("u3").toList)⟩].head? ∧
    selectTrackA [⟨("fr").toList, none, some (("u3").toList)⟩] = none := by
  have h := claim_C6_fallback_first_track
    [⟨("fr").toList, none, some (("u3").toList)⟩]
  exact ⟨h.1, h.2 (by decide)⟩

/-- Counterexample to C6 as stated: on a non-empty list with no English
track, the `_extract_caption_data` resolver (one of the two resolvers the
claim covers) returns `none`. -/
theorem claim_C6_counterexample :
    selectTrackA [⟨("fr").toList, none, some (("u3").toList)⟩] = none ∧
    [⟨("fr").toList, none, some (("u3").toList)⟩] ≠ ([] : List Track) := by
  exact ⟨by decide, by decide⟩

/-! ## Metadata resolver claims -/

/-- C8 (amended): the resolver is total (never raises) and always yields a
complete structure, but the fallback literals depend on the path.  When the
page is fetched with status 200, a missing upload date falls back to the
current date, a missing author to `Unknown Channel` and a missing title to
(the cleaned form of) `Video {id}`.  When the page cannot be fetched, the
hard-coded fallback record is used instead: title
`Coffee with Scott Adams - Episode {id}` and channel `Scott Adams`, not
`Unknown Channel`.  The server-side record assembly in
`extract_captions_from_page` falls back to the fixed date `2024-01-01`,
not the current date. -/
theorem claim_C8_metadata_fallbacks :
    ∀ (uesc : List Char → List Char)
      (pdate : List Char → Option (List Char)) (now vid : List Char)
      (fetch : Option (Nat × List Char)),
      (fetch = none →
        get_video_metadata uesc pdate now vid fetch = fallbackMeta vid now) ∧
      (∀ st html, fetch = some (st, html) → st ≠ 200 →
        get_video_metadata uesc pdate now vid fetch = fallbackMeta vid now) ∧
      (∀ html, fetch = some (200, html) →
        findCapture authorLit html = none →
        (get_video_metadata uesc pdate now vid fetch).channel =
          unknownChannel) ∧
      (∀ html, fetch = some (200, html) →
        findCapture dateLit html = none →
        (get_video_metadata uesc pdate now vid fetch).date = now) ∧
      (∀ html, fetch = some (200, html) →
        findCapture titleLit html = none →
        (get_video_metadata uesc pdate now vid fetch).title =
          clean_title (uesc (videoPre ++ vid))) ∧
      (∀ t s2 ti ch r, extract_captions_from_page (some t) s2 ti none ch
          vid = some r → r.date = defaultDate) := by
  intro uesc pdate now vid fetch
  refine ⟨?_, ?_, ?_, ?_, ?_, ?_⟩
  · intro h
    subst h
    rfl
  · intro st html h hst
    subst h
    simp [get_video_metadata, hst]
  · intro html h hnone
    subst h
    simp [get_video_metadata, hnone]
  · intro html h hnone
    subst h
    simp [get_video_metadata, hnone]
  · intro html h hnone
    subst h
    simp [get_video_metadata, hnone]
  · intro t s2 ti ch r h
    unfold extract_captions_from_page at h
    split at h
    · exact absurd h (by simp)
    · split at h
      · exact absurd h (by simp)
      · have hr := Option.some.inj h
        subst hr
        rfl

/-- Witness for C8 at concrete inputs: a failed fetch, a fetched page with
no probes matching, and a concrete record assembly. -/
theorem claim_C8_metadata_fallbacks_witness :
    get_video_metadata id (fun _ => none) (("2026-10-12").toList)
      (("abc").toList) none =
      fallbackMeta (("abc").toList) (("2026-10-12").toList) ∧
    (get_video_metadata id (fun _ => none) (("2026-10-12").toList)
      (("abc").toList) (some (200, ("x").toList))).channel =
      unknownChannel ∧
    (get_video_metadata id (fun _ => none) (("2026-10-12").toList)
      (("abc").toList) (some (200, ("x").toList))).date =
      ("2026-10-12").toList := by
  refine ⟨?_, ?_, ?_⟩
  · exact (claim_C8_metadata_fallbacks id (fun _ => none)
      (("2026-10-12").toList) (("abc").toList) none).1 rfl
  · exact (claim_C8_metadata_fallbacks id (fun _ => none)
      (("2026-10-12").toList) (("abc").toList)
      (some (200, ("x").toList))).2.2.1 (("x").toList) rfl (by decide)
  · exact (claim_C8_metadata_fallbacks id (fun _ => none)
      (("2026-10-12").toList) (("abc").toList)
      (some (200, ("x").toList))).2.2.2.1 (("x").toList) rfl (by decide)

/-- Counterexample to C8 as stated: when the page cannot be fetched, the
channel field the resolver could not determine is filled with
`Scott Adams`, not with the `Unknown Channel` placeholder. -/
theorem claim_C8_counterexample :
    (get_video_metadata id (fun _ => none) (("2026-10-12").toList)
      (("abc").toList) none).channel = fallbackChannel ∧
    fallbackChannel ≠ unknownChannel := by
  exact ⟨rfl, by decide⟩

/-! ## XML scanner lemmas -/

lemma dropLit_append (p l : List Char) : dropLit p (p ++ l) = some l := by
  induction p with
  | nil => rfl
  | cons a ps ih => simp [dropLit, ih]

lemma dropLit_length (p : List Char) :
    ∀ s r, dropLit p s = some r → r.length + p.length = s.length := by
  induction p with
  | nil =>
    intro s r h
    have : s = r := Option.some.inj h
    subst this
    simp
  | cons a ps ih =>
    intro s r h
    cases s with
    | nil => exact absurd h (by simp [dropLit])
    | cons c cs =>
      by_cases hca : c = a
      · rw [dropLit, if_pos hca] at h
        have := ih cs r h
        simp only [List.length_cons]
        omega
      · rw [dropLit, if_neg hca] at h
        exact absurd h (by simp)

lemma length_dropWhile_le (p : Char → Bool) (l : List Char) :
    (l.dropWhile p).length ≤ l.length := by
  induction l with
  | nil => simp
  | cons a as ih =>
    by_cases hpa : p a
    · rw [List.dropWhile_cons_of_pos hpa]
      exact le_trans ih (by simp)
    · rw [List.dropWhile_cons_of_neg hpa]

lemma tryMatch_rest_lt (s : List Char) (t r : List Char)
    (h : tryMatch s = some (t, r)) : r.length < s.length := by
  unfold tryMatch at h
  split at h
  · exact absurd h (by simp)
  · rename_i r1 h1
    split at h
    · exact absurd h (by simp)
    · rename_i g r3 h2
      split at h
      · exact absurd h (by simp)
      · rename_i c0 crest h3
        split at h
        · exact absurd h (by simp)
        · rename_i r4 h4
          have hpair := Option.some.inj h
          have hr : r = r4 := congrArg Prod.snd hpair.symm
          subst hr
          have e1 := dropLit_length openTextLit s r1 h1
          have e2 : (g :: r3).length ≤ r1.length := by
            rw [← h2]
            exact length_dropWhile_le _ _
          have e3 : (r3.dropWhile (fun c => c != '<')).length ≤ r3.length :=
            length_dropWhile_le _ _
          have e4 := dropLit_length closeTextLit _ _ h4
          have e5 : openTextLit.length = 5 := by decide
          have e6 : closeTextLit.length = 7 := by decide
          simp only [List.length_cons] at e2
          omega

lemma scanTextsF_congr :
    ∀ f1 f2 (l : List Char), l.length ≤ f1 → l.length ≤ f2 →
      scanTextsF f1 l = scanTextsF f2 l := by
  intro f1
  induction f1 with
  | zero =>
    intro f2 l h1 h2
    have : l = [] := List.eq_nil_of_length_eq_zero (Nat.le_zero.mp h1)
    subst this
    cases f2 <;> rfl
  | succ f ih =>
    intro f2 l h1 h2
    cases l with
    | nil => cases f2 <;> rfl
    | cons c cs =>
      cases f2 with
      | zero => simp at h2
      | succ g =>
        simp only [scanTextsF]
        rcases hm : tryMatch (c :: cs) with - | ⟨t, r⟩
        · exact ih g cs (by simpa using h1) (by simpa using h2)
        · have hlt := tryMatch_rest_lt (c :: cs) t r hm
          simp only [List.length_cons] at hlt h1 h2
          show t :: scanTextsF f r = t :: scanTextsF g r
          rw [ih g r (by omega) (by omega)]

lemma xmlTextMatches_cons_none {c : Char} {cs : List Char}
    (h : tryMatch (c :: cs) = none) :
    xmlTextMatches (c :: cs) = xmlTextMatches cs := by
  show scanTextsF (cs.length + 1) (c :: cs) = scanTextsF cs.length cs
  simp only [scanTextsF, h]

lemma xmlTextMatches_some {s t r : List Char}
    (h : tryMatch s = some (t, r)) :
    xmlTextMatches s = t :: xmlTextMatches r := by
  cases s with
  | nil => exact absurd h (by simp [tryMatch, openTextLit, dropLit])
  | cons c cs =>
    show scanTextsF (cs.length + 1) (c :: cs) = t :: scanTextsF r.length r
    simp only [scanTextsF, h]
    have hlt := tryMatch_rest_lt (c :: cs) t r h
    simp only [List.length_cons] at hlt
    rw [scanTextsF_congr cs.length r.length r (by omega) (le_refl _)]

lemma tm_none_of_ne {c : Char} (l : List Char) (hc : c ≠ '<') :
    tryMatch (c :: l) = none := by
  have hd : dropLit openTextLit (c :: l) = none := by
    have : openTextLit = '<' :: 't' :: 'e' :: 'x' :: 't' :: [] := rfl
    rw [this, dropLit, if_neg hc]
  unfold tryMatch
  rw [hd]

lemma tm_none_tr (l : List Char) : tryMatch ('<' :: 't' :: 'r' :: l) = none
    := rfl

lemma tm_none_slash (l : List Char) : tryMatch ('<' :: '/' :: l) = none
    := rfl

lemma takeWhile_append_stop (p : Char → Bool) (a : List Char) (s : Char)
    (b : List Char) (ha : ∀ x ∈ a, p x = true) (hs : p s = false) :
    (a ++ s :: b).takeWhile p = a := by
  induction a with
  | nil => simp [List.takeWhile, hs]
  | cons x xs ih =>
    have hx : p x = true := ha x (by simp)
    rw [List.cons_append, List.takeWhile_cons_of_pos hx]
    rw [ih (fun y hy => ha y (by simp [hy]))]

lemma dropWhile_append_stop (p : Char → Bool) (a : List Char) (s : Char)
    (b : List Char) (ha : ∀ x ∈ a, p x = true) (hs : p s = false) :
    (a ++ s :: b).dropWhile p = s :: b := by
  induction a with
  | nil => simp [List.dropWhile, hs]
  | cons x xs ih =>
    have hx : p x = true := ha x (by simp)
    rw [List.cons_append, List.dropWhile_cons_of_pos hx]
    exact ih (fun y hy => ha y (by simp [hy]))

lemma tryMatch_elem (a c rest : List Char) (ha : ∀ x ∈ a, x ≠ '>')
    (hc : c ≠ []) (hcl : ∀ x ∈ c, x ≠ '<') :
    tryMatch (openTextLit ++ (a ++ ('>' :: (c ++ (closeTextLit ++ rest)))))
      = some (c, rest) := by
  have h2 : (a ++ '>' :: (c ++ (closeTextLit ++ rest))).dropWhile
      (fun x => x != '>') = '>' :: (c ++ (closeTextLit ++ rest)) := by
    apply dropWhile_append_stop
    · intro x hx
      simpa using ha x hx
    · simp
  have hct : closeTextLit ++ rest =
      '<' :: (('/' :: 't' :: 'e' :: 'x' :: 't' :: '>' :: []) ++ rest) := rfl
  have h3 : (c ++ (closeTextLit ++ rest)).takeWhile (fun x => x != '<')
      = c := by
    rw [hct]
    apply takeWhile_append_stop
    · intro x hx
      simpa using hcl x hx
    · simp
  have h4 : (c ++ (closeTextLit ++ rest)).dropWhile (fun x => x != '<')
      = closeTextLit ++ rest := by
    rw [hct]
    rw [dropWhile_append_stop]
    · intro x hx
      simpa using hcl x hx
    · simp
  cases c with
  | nil => exact absurd rfl hc
  | cons c0 crest =>
    unfold tryMatch
    simp only [dropLit_append, h2, h3, h4]

lemma scan_closeTrans : xmlTextMatches (("</transcript>").toList) = [] := by
  show xmlTextMatches ('<' :: '/' :: 't' :: 'r' :: 'a' :: 'n' :: 's' ::
    'c' :: 'r' :: 'i' :: 'p' :: 't' :: '>' :: []) = []
  rw [xmlTextMatches_cons_none (tm_none_slash _)]
  rw [xmlTextMatches_cons_none (tm_none_of_ne _ (by decide))]
  rw [xmlTextMatches_cons_none (tm_none_of_ne _ (by decide))]
  rw [xmlTextMatches_cons_none (tm_none_of_ne _ (by decide))]
  rw [xmlTextMatches_cons_none (tm_none_of_ne _ (by decide))]
  rw [xmlTextMatches_cons_none (tm_none_of_ne _ (by decide))]
  rw [xmlTextMatches_cons_none (tm_none_of_ne _ (by decide))]
  rw [xmlTextMatches_cons_none (tm_none_of_ne _ (by decide))]
  rw [xmlTextMatches_cons_none (tm_none_of_ne _ (by decide))]
  rw [xmlTextMatches_cons_none (tm_none_of_ne _ (by decide))]
  rw [xmlTextMatches_cons_none (tm_none_of_ne _ (by decide))]
  rw [xmlTextMatches_cons_none (tm_none_of_ne _ (by decide))]
  rw [xmlTextMatches_cons_none (tm_none_of_ne _ (by decide))]
  rfl

lemma scan_openTrans (l : List Char) :
    xmlTextMatches (("<transcript>").toList ++ l) = xmlTextMatches l := by
  show xmlTextMatches ('<' :: 't' :: 'r' :: 'a' :: 'n' :: 's' :: 'c' ::
    'r' :: 'i' :: 'p' :: 't' :: '>' :: l) = xmlTextMatches l
  rw [xmlTextMatches_cons_none (tm_none_tr _)]
  rw [xmlTextMatches_cons_none (tm_none_of_ne _ (by decide))]
  rw [xmlTextMatches_cons_none (tm_none_of_ne _ (by decide))]
  rw [xmlTextMatches_cons_none (tm_none_of_ne _ (by decide))]
  rw [xmlTextMatches_cons_none (tm_none_of_ne _ (by decide))]
  rw [xmlTextMatches_cons_none (tm_none_of_ne _ (by decide))]
  rw [xmlTextMatches_cons_none (tm_none_of_ne _ (by decide))]
  rw [xmlTextMatches_cons_none (tm_none_of_ne _ (by decide))]
  rw [xmlTextMatches_cons_none (tm_none_of_ne _ (by decide))]
  rw [xmlTextMatches_cons_none (tm_none_of_ne _ (by decide))]
  rw [xmlTextMatches_cons_none (tm_none_of_ne _ (by decide))]
  rw [xmlTextMatches_cons_none (tm_none_of_ne _ (by decide))]

lemma scan_renderElems (items : List (List Char × List Char))
    (h : ∀ it ∈ items,
      (∀ x ∈ it.1, x ≠ '>') ∧ it.2 ≠ [] ∧ ∀ x ∈ it.2, x ≠ '<') :
    xmlTextMatches (renderElems items) = items.map Prod.snd := by
  induction items with
  | nil => exact scan_closeTrans
  | cons it items ih =>
    obtain ⟨ha, hc, hcl⟩ := h it (by simp)
    rcases it with ⟨a, c⟩
    show xmlTextMatches (openTextLit ++ (a ++ ('>' :: (c ++
      (closeTextLit ++ renderElems items))))) = c :: items.map Prod.snd
    rw [xmlTextMatches_some (tryMatch_elem a c (renderElems items) ha hc
      hcl)]
    rw [ih (fun x hx => h x (by simp [hx]))]

/-- C3 (amended): for every well-formed timed-text document whose `N`
`<text>` elements each carry a non-empty content free of nested markup
(no `<` inside) and attributes free of `>`, the `findall`-based parser
extracts exactly `N` fragments, one per element, in element order.
Elements with empty content or nested markup are not matched by the regex
(see the counterexample), so the claim holds only under these
conditions. -/
theorem claim_C3_xml_fragment_count (items : List (List Char × List Char))
    (h : ∀ it ∈ items,
      (∀ x ∈ it.1, x ≠ '>') ∧ it.2 ≠ [] ∧ ∀ x ∈ it.2, x ≠ '<') :
    xmlTextMatches (renderXML items) = items.map Prod.snd ∧
    (xmlTextMatches (renderXML items)).length = items.length := by
  have hmain : xmlTextMatches (renderXML items) = items.map Prod.snd := by
    rw [renderXML, scan_openTrans, scan_renderElems items h]
  exact ⟨hmain, by rw [hmain, List.length_map]⟩

/-- Witness for C3 at a concrete two-element document. -/
theorem claim_C3_xml_fragment_count_witness :
    xmlTextMatches (renderXML [((" a=b").toList, ("hi").toList),
      ([], ("yo").toList)]) = [("hi").toList, ("yo").toList] ∧
    (xmlTextMatches (renderXML [((" a=b").toList, ("hi").toList),
      ([], ("yo").toList)])).length = 2 := by
  exact claim_C3_xml_fragment_count
    [((" a=b").toList, ("hi").toList), ([], ("yo").toList)] (by decide)

/-- Counterexample to C3 as stated: a well-formed document with exactly one
`<text>` element whose content is empty yields zero fragments, not one
(the regex `([^<]+)` requires non-empty markup-free content). -/
theorem claim_C3_counterexample :
    (xmlTextMatches (renderXML [([], [])])).length = 0 ∧
    [(([] : List Char), ([] : List Char))].length = 1 := by
  exact ⟨by decide, rfl⟩

/-! ## Normalizer idempotence lemmas -/

/-- No two adjacent whitespace characters. -/
def noDoubleWS : List Char → Bool
  | [] => true
  | [_] => true
  | c :: c' :: cs => !(isWS c && isWS c') && noDoubleWS (c' :: cs)

lemma replaceAllF_no_occur (p r : List Char) :
    ∀ fuel s, occursB p s = false → replaceAllF r p fuel s = s := by
  intro fuel
  induction fuel with
  | zero => intro s _; rfl
  | succ f ih =>
    intro s h
    cases s with
    | nil => rfl
    | cons c cs =>
      rw [occursB] at h
      rcases Bool.or_eq_false_iff.mp h with ⟨hpre, hrest⟩
      rw [replaceAllF, if_neg (by simp [hpre]), ih cs hrest]

lemma replaceAll_no_occur (p r s : List Char) (h : occursB p s = false) :
    replaceAll p r s = s := replaceAllF_no_occur p r s.length s h

lemma removeCIF_no_occur (m : List Char) :
    ∀ fuel s, occursCIB m s = false → removeCIF m fuel s = s := by
  intro fuel
  induction fuel with
  | zero => intro s _; rfl
  | succ f ih =>
    intro s h
    cases s with
    | nil => rfl
    | cons c cs =>
      rw [occursCIB] at h
      rcases Bool.or_eq_false_iff.mp h with ⟨hpre, hrest⟩
      rw [removeCIF, if_neg (by simp [hpre]), ih cs hrest]

lemma removeCI_no_occur (m s : List Char) (h : occursCIB m s = false) :
    removeCI m s = s := removeCIF_no_occur m s.length s h

lemma occursB_singleton (x : Char) :
    ∀ s, occursB [x] s = true ↔ x ∈ s := by
  intro s
  induction s with
  | nil => simp [occursB, List.isPrefixOf]
  | cons c cs ih =>
    rw [occursB]
    simp [List.isPrefixOf, ih]

lemma mem_dropWhile (p : Char → Bool) :
    ∀ (s : List Char) (c : Char), c ∈ s.dropWhile p → c ∈ s := by
  intro s
  induction s with
  | nil => simp
  | cons a as ih =>
    intro c hc
    by_cases hpa : p a
    · rw [List.dropWhile_cons_of_pos hpa] at hc
      exact List.mem_cons_of_mem a (ih c hc)
    · rwa [List.dropWhile_cons_of_neg hpa] at hc

lemma mem_pyStrip (s : List Char) (c : Char) (h : c ∈ pyStrip s) :
    c ∈ s := by
  unfold pyStrip at h
  rw [List.mem_reverse] at h
  have h2 := mem_dropWhile isWS _ c h
  rw [List.mem_reverse] at h2
  exact mem_dropWhile isWS s c h2

lemma mem_removeCIF (m : List Char) :
    ∀ fuel s c, c ∈ removeCIF m fuel s → c ∈ s := by
  intro fuel
  induction fuel with
  | zero => intro s c h; exact h
  | succ f ih =>
    intro s c h
    cases s with
    | nil => exact h
    | cons a as =>
      rw [removeCIF] at h
      split at h
      · exact List.drop_subset _ _ (ih _ c h)
      · rcases List.mem_cons.mp h with h' | h'
        · exact h' ▸ List.mem_cons_self a as
        · exact List.mem_cons_of_mem a (ih as c h')

lemma mem_removeCI (m s : List Char) (c : Char) (h : c ∈ removeCI m s) :
    c ∈ s := mem_removeCIF m s.length s c h

lemma squeeze_ws_space :
    ∀ s c, c ∈ squeeze s → isWS c = true → c = ' ' := by
  intro s
  induction s with
  | nil => simp [squeeze]
  | cons a as ih =>
    cases as with
    | nil =>
      intro c hc hws
      simp only [squeeze, List.mem_singleton] at hc
      subst hc
      by_cases wa : isWS a
      · simp [wa]
      · rw [if_neg wa] at hws ⊢
        exact absurd hws (by simp [wa])
    | cons b bs =>
      intro c hc hws
      by_cases hab : (isWS a && isWS b) = true
      · rw [squeeze, if_pos hab] at hc
        exact ih c hc hws
      · rw [squeeze, if_neg hab] at hc
        rcases List.mem_cons.mp hc with h' | h'
        · subst h'
          by_cases wa : isWS a
          · simp [wa]
          · rw [if_neg wa] at hws ⊢
            exact absurd hws (by simp [wa])
        · exact ih c h' hws

lemma squeeze_fixed :
    ∀ s, noDoubleWS s = true → (∀ c ∈ s, isWS c = true → c = ' ') →
      squeeze s = s := by
  intro s
  induction s with
  | nil => intro _ _; rfl
  | cons a as ih =>
    cases as with
    | nil =>
      intro _ hws
      show squeeze [a] = [a]
      rw [squeeze]
      by_cases wa : isWS a
      · rw [if_pos wa, hws a (by simp) wa]
      · rw [if_neg wa]
    | cons b bs =>
      intro hnd hws
      rw [noDoubleWS] at hnd
      rcases Bool.and_eq_true_iff.mp hnd with ⟨hnab, hnd'⟩
      have hab : (isWS a && isWS b) = false := by
        rcases h : (isWS a && isWS b) with - | -
        · rfl
        · rw [h] at hnab
          simp at hnab
      rw [squeeze, if_neg (by simp [hab])]
      have htail : squeeze (b :: bs) = b :: bs :=
        ih hnd' (fun c hc hw => hws c (List.mem_cons_of_mem a hc) hw)
      rw [htail]
      by_cases wa : isWS a
      · rw [if_pos wa, hws a (by simp) wa]
      · rw [if_neg wa]

/-- Every whitespace character surviving the cleaning pipeline is an ASCII
space. -/
lemma cleanPipe_ws_space (s : List Char) :
    ∀ c ∈ cleanPipe s, isWS c = true → c = ' ' := by
  intro c hc hws
  unfold cleanPipe at hc
  have hc1 := mem_pyStrip _ _ hc
  have hc2 := mem_removeCI _ _ _ hc1
  have hc3 := mem_removeCI _ _ _ hc2
  exact squeeze_ws_space _ c hc3 hws

lemma pyStrip_cleanPipe (s : List Char) :
    pyStrip (cleanPipe s) = cleanPipe s := by
  unfold cleanPipe
  exact pyStrip_idem _

/-- C2 (amended): `_clean_text` is idempotent on every input whose cleaned
output contains no handled entity sequence, no case-insensitive
`[Music]`/`[Applause]` marker, and no two adjacent whitespace characters.
In general it is not idempotent (see the counterexample): entity decoding
can expose a new entity and marker removal can expose a new marker or
leave a double space behind. -/
theorem claim_C2_clean_text_idem (x : List Char)
    (h1 : occursB entAmp (clean_text x) = false)
    (h2 : occursB entLt (clean_text x) = false)
    (h3 : occursB entGt (clean_text x) = false)
    (h4 : occursB entQuot (clean_text x) = false)
    (h5 : occursB entNum39 (clean_text x) = false)
    (h6 : occursB entApos (clean_text x) = false)
    (h7 : occursB entNbsp (clean_text x) = false)
    (h8 : occursCIB musicM (clean_text x) = false)
    (h9 : occursCIB applauseM (clean_text x) = false)
    (h10 : noDoubleWS (clean_text x) = true) :
    clean_text (clean_text x) = clean_text x := by
  by_cases hx : x = []
  · subst hx
    rfl
  · have heq : clean_text x = cleanPipe x := by
      rw [clean_text, if_neg hx]
    rw [heq] at h1 h2 h3 h4 h5 h6 h7 h8 h9 h10 ⊢
    by_cases hy : cleanPipe x = []
    · rw [hy]
      rfl
    · rw [clean_text, if_neg hy]
      have hnb : occursB nbspP (cleanPipe x) = false := by
        rcases hb : occursB nbspP (cleanPipe x) with - | -
        · rfl
        · have : '\xa0' ∈ cleanPipe x := (occursB_singleton _ _).mp hb
          have := cleanPipe_ws_space x '\xa0' this (by decide)
          exact absurd this (by decide)
      have hnl : occursB nlP (cleanPipe x) = false := by
        rcases hb : occursB nlP (cleanPipe x) with - | -
        · rfl
        · have : '\n' ∈ cleanPipe x := (occursB_singleton _ _).mp hb
          have := cleanPipe_ws_space x '\n' this (by decide)
          exact absurd this (by decide)
      conv_lhs => rw [cleanPipe]
      rw [replaceAll_no_occur entAmp ampR _ h1]
      rw [replaceAll_no_occur entLt ltR _ h2]
      rw [replaceAll_no_occur entGt gtR _ h3]
      rw [replaceAll_no_occur entQuot quotR _ h4]
      rw [replaceAll_no_occur entNum39 aposR _ h5]
      rw [replaceAll_no_occur entApos aposR _ h6]
      rw [replaceAll_no_occur entNbsp spaceR _ h7]
      rw [replaceAll_no_occur nbspP spaceR _ hnb]
      rw [replaceAll_no_occur nlP spaceR _ hnl]
      rw [squeeze_fixed _ h10 (cleanPipe_ws_space x)]
      rw [removeCI_no_occur musicM _ h8]
      rw [removeCI_no_occur applauseM _ h9]
      exact pyStrip_cleanPipe x

/-- Witness for C2 on an already-clean input. -/
theorem claim_C2_clean_text_idem_witness :
    clean_text (clean_text (("hello world").toList)) =
      clean_text (("hello world").toList) := by
  exact claim_C2_clean_text_idem (("hello world").toList) (by decide)
    (by decide) (by decide) (by decide) (by decide) (by decide) (by decide)
    (by decide) (by decide) (by decide)

/-- Counterexample to C2 as stated: on `"&amp;amp;"` one pass yields
`"&amp;"` and a second pass decodes it further to `"&"`, so the normalizer
is not idempotent. -/
theorem claim_C2_counterexample :
    clean_text (clean_text (("&amp;amp;").toList)) ≠
      clean_text (("&amp;amp;").toList) := by
  decide

/-! ## JSON parser lemmas (C4 and C7) -/

/-- A segment is a JSON object. -/
def segObjB : JVal → Bool
  | .obj _ => true
  | _ => false

/-- A segment carrying a `utf8` field. -/
def segHasUtf8B : JVal → Bool
  | .obj skvs => (jlookup utf8Key skvs).isSome
  | _ => false

/-- The `utf8` values collected from a segment list (the pure shape of the
inner loop on object segments). -/
def segsUtf8Vals : List JVal → List JVal
  | [] => []
  | .obj skvs :: ss =>
    (match jlookup utf8Key skvs with
     | some v => [v]
     | none => []) ++ segsUtf8Vals ss
  | _ :: ss => segsUtf8Vals ss

/-- Shape condition under which one event is processed without error:
the event is an object and, when it has a `segs` key, its value is an
array of objects. -/
def eventShapeB : JVal → Bool
  | .obj kvs =>
    match jlookup segsKey kvs with
    | some (.arr ss) => ss.all segObjB
    | some _ => false
    | none => true
  | _ => false

/-- The number of fragments the event loop actually emits for one event. -/
def eventFragCount : JVal → Nat
  | .obj kvs =>
    match jlookup segsKey kvs with
    | some (.arr ss) => (ss.filter segHasUtf8B).length
    | some _ => 0
    | none => if (jlookup utf8Key kvs).isSome then 1 else 0
  | _ => 0

/-- The quantity named by the original claim: the sum over all events of
the lengths of their `segs` arrays. -/
def segsLenSum (evs : List JVal) : Nat :=
  (evs.map (fun e =>
    match e with
    | .obj kvs =>
      match jlookup segsKey kvs with
      | some (.arr ss) => ss.length
      | _ => 0
    | _ => 0)).sum

lemma partsOfSegs_ok (ss : List JVal) (h : ss.all segObjB = true) :
    partsOfSegs ss = .ok (segsUtf8Vals ss) := by
  induction ss with
  | nil => rfl
  | cons s ss ih =>
    rw [List.all_cons, Bool.and_eq_true_iff] at h
    obtain ⟨hs, hss⟩ := h
    cases s with
    | obj skvs =>
      rcases hu : jlookup utf8Key skvs with - | v
      · simp only [partsOfSegs, pyContains, hu, Option.isSome_none,
          segsUtf8Vals, if_false, Bool.false_eq_true, ite_false]
        rw [ih hss]
        rfl
      · simp only [partsOfSegs, pyContains, hu, Option.isSome_some,
          if_true, pyIndexStr, segsUtf8Vals]
        rw [ih hss]
        rfl
    | null => exact absurd hs (by simp [segObjB])
    | bool b => exact absurd hs (by simp [segObjB])
    | num n => exact absurd hs (by simp [segObjB])
    | str s' => exact absurd hs (by simp [segObjB])
    | arr xs => exact absurd hs (by simp [segObjB])

lemma segsUtf8Vals_length (ss : List JVal) (h : ss.all segObjB = true) :
    (segsUtf8Vals ss).length = (ss.filter segHasUtf8B).length := by
  induction ss with
  | nil => rfl
  | cons s ss ih =>
    rw [List.all_cons, Bool.and_eq_true_iff] at h
    obtain ⟨hs, hss⟩ := h
    cases s with
    | obj skvs =>
      rcases hu : jlookup utf8Key skvs with - | v
      · rw [show segsUtf8Vals (JVal.obj skvs :: ss) =
            (match jlookup utf8Key skvs with
             | some v => [v]
             | none => []) ++ segsUtf8Vals ss from rfl, hu,
          List.filter_cons_of_neg (by simp [segHasUtf8B, hu])]
        simpa using ih hss
      · rw [show segsUtf8Vals (JVal.obj skvs :: ss) =
            (match jlookup utf8Key skvs with
             | some v => [v]
             | none => []) ++ segsUtf8Vals ss from rfl, hu,
          List.filter_cons_of_pos (by simp [segHasUtf8B, hu])]
        simpa using ih hss
    | null => exact absurd hs (by simp [segObjB])
    | bool b => exact absurd hs (by simp [segObjB])
    | num n => exact absurd hs (by simp [segObjB])
    | str s' => exact absurd hs (by simp [segObjB])
    | arr xs => exact absurd hs (by simp [segObjB])

lemma partsOfEvent_ok (e : JVal) (h : eventShapeB e = true) :
    ∃ ps, partsOfEvent e = .ok ps ∧ ps.length = eventFragCount e := by
  cases e with
  | obj kvs =>
    rcases hseg : jlookup segsKey kvs with - | v
    · rcases hu : jlookup utf8Key kvs with - | w
      · refine ⟨[], ?_, ?_⟩
        · simp only [partsOfEvent, pyContains, hseg, Option.isSome_none,
            Bool.false_eq_true, ite_false, hu]
        · simp [eventFragCount, hseg, hu]
      · refine ⟨[w], ?_, ?_⟩
        · simp only [partsOfEvent, pyContains, hseg, Option.isSome_none,
            Bool.false_eq_true, ite_false, hu, Option.isSome_some,
            ite_true, pyIndexStr]
        · simp [eventFragCount, hseg, hu]
    · cases v with
      | arr ss =>
        have hall : ss.all segObjB = true := by
          have h' := h
          rw [show eventShapeB (JVal.obj kvs) =
            (match jlookup segsKey kvs with
             | some (.arr ss) => ss.all segObjB
             | some _ => false
             | none => true) from rfl, hseg] at h'
          exact h'
        refine ⟨segsUtf8Vals ss, ?_, ?_⟩
        · simp only [partsOfEvent, pyContains, hseg, Option.isSome_some,
            ite_true, pyIndexStr, pyIter]
          exact partsOfSegs_ok ss hall
        · rw [segsUtf8Vals_length ss hall]
          simp [eventFragCount, hseg]
      | null =>
        rw [show eventShapeB (JVal.obj kvs) =
          (match jlookup segsKey kvs with
           | some (.arr ss) => ss.all segObjB
           | some _ => false
           | none => true) from rfl, hseg] at h
        exact absurd h (by simp)
      | bool b =>
        rw [show eventShapeB (JVal.obj kvs) =
          (match jlookup segsKey kvs with
           | some (.arr ss) => ss.all segObjB
           | some _ => false
           | none => true) from rfl, hseg] at h
        exact absurd h (by simp)
      | num n =>
        rw [show eventShapeB (JVal.obj kvs) =
          (match jlookup segsKey kvs with
           | some (.arr ss) => ss.all segObjB
           | some _ => false
           | none => true) from rfl, hseg] at h
        exact absurd h (by simp)
      | str s' =>
        rw [show eventShapeB (JVal.obj kvs) =
          (match jlookup segsKey kvs with
           | some (.arr ss) => ss.all segObjB
           | some _ => false
           | none => true) from rfl, hseg] at h
        exact absurd h (by simp)
      | obj kvs' =>
        rw [show eventShapeB (JVal.obj kvs) =
          (match jlookup segsKey kvs with
           | some (.arr ss) => ss.all segObjB
           | some _ => false
           | none => true) from rfl, hseg] at h
        exact absurd h (by simp)
  | null => exact absurd h (by simp [eventShapeB])
  | bool b => exact absurd h (by simp [eventShapeB])
  | num n => exact absurd h (by simp [eventShapeB])
  | str s' => exact absurd h (by simp [eventShapeB])
  | arr xs => exact absurd h (by simp [eventShapeB])

/-- C4 (amended): for a JSON3 `events` array whose events are objects (and
whose `segs` values, when present, are arrays of objects), the event loop
extracts one fragment per `segs` segment that carries a `utf8` field, plus
one fragment per `segs`-less event carrying a direct `utf8` field —
not one fragment per segment of every `segs` array (see the
counterexample: segments without `utf8`, or direct-text events, break that
equality). -/
theorem claim_C4_json_fragment_count (evs : List JVal)
    (hwf : evs.all eventShapeB = true) :
    ∃ L, partsOfEvents evs = .ok L ∧
      L.length = (evs.map eventFragCount).sum := by
  induction evs with
  | nil => exact ⟨[], rfl, rfl⟩
  | cons e es ih =>
    rw [List.all_cons, Bool.and_eq_true_iff] at hwf
    obtain ⟨he, hes⟩ := hwf
    obtain ⟨ps, hps, hlen⟩ := partsOfEvent_ok e he
    obtain ⟨L, hL, hLlen⟩ := ih hes
    refine ⟨ps ++ L, ?_, ?_⟩
    · rw [partsOfEvents, hps, hL]
    · simp [hlen, hLlen]

/-- Witness for C4: one event with a two-segment `segs` array where only
one segment has `utf8`, and one direct-text event. -/
theorem claim_C4_json_fragment_count_witness :
    ∃ L, partsOfEvents [
      .obj [(segsKey, .arr [.obj [(utf8Key, .str (("a").toList))],
                            .obj []])],
      .obj [(utf8Key, .str (("b").toList))]] = .ok L ∧
      L.length = (([
        JVal.obj [(segsKey, .arr [.obj [(utf8Key, .str (("a").toList))],
                            .obj []])],
        JVal.obj [(utf8Key, .str (("b").toList))]]).map
          eventFragCount).sum := by
  exact claim_C4_json_fragment_count _ (by decide)

/-- Counterexample to C4 as stated: a single event whose `segs` array has
one segment without a `utf8` field yields zero fragments while the sum of
`segs` lengths is one. -/
theorem claim_C4_counterexample :
    ∃ L, partsOfEvents [JVal.obj [(segsKey, .arr [.obj []])]] = .ok L ∧
      L.length ≠ segsLenSum [JVal.obj [(segsKey, .arr [.obj []])]] := by
  exact ⟨[], rfl, by decide⟩

/-- The `utf8` field of an object, when present, is a string. -/
def utf8StrOkB (kvs : List (List Char × JVal)) : Bool :=
  match jlookup utf8Key kvs with
  | some (.str _) => true
  | some _ => false
  | none => true

def wfSegB : JVal → Bool
  | .obj skvs => utf8StrOkB skvs
  | _ => false

def wfEventB : JVal → Bool
  | .obj kvs =>
    match jlookup segsKey kvs with
    | some (.arr ss) => ss.all wfSegB
    | some _ => false
    | none => utf8StrOkB kvs
  | _ => false

def wfBodyItemB : JVal → Bool
  | .obj kvs =>
    match jlookup utf8Key kvs with
    | some (.str _) => true
    | some v => !pyTruthy v
    | none => true
  | _ => true

def bodyOkB (kvs : List (List Char × JVal)) : Bool :=
  match jlookup bodyKey kvs with
  | some (.arr items) => items.all wfBodyItemB
  | some _ => true
  | none => true

/-- Well-shaped JSON3 payload: an object whose `events` value (if present)
is an array of well-shaped events and whose `body` value (if an array)
holds well-shaped items. -/
def wfJsonB : JVal → Bool
  | .obj kvs =>
    (match jlookup eventsKey kvs with
     | some (.arr evs) => evs.all wfEventB
     | some _ => false
     | none => true) && bodyOkB kvs
  | _ => false

lemma all_wfSegB_objB (ss : List JVal) (h : ss.all wfSegB = true) :
    ss.all segObjB = true := by
  rw [List.all_eq_true] at h ⊢
  intro s hs
  have hws := h s hs
  cases s with
  | obj skvs => rfl
  | null => exact absurd hws (by simp [wfSegB])
  | bool b => exact absurd hws (by simp [wfSegB])
  | num n => exact absurd hws (by simp [wfSegB])
  | str s' => exact absurd hws (by simp [wfSegB])
  | arr xs => exact absurd hws (by simp [wfSegB])

lemma segsUtf8Vals_str (ss : List JVal) (h : ss.all wfSegB = true) :
    ∀ p ∈ segsUtf8Vals ss, ∃ s, p = .str s := by
  induction ss with
  | nil => simp [segsUtf8Vals]
  | cons s ss ih =>
    rw [List.all_cons, Bool.and_eq_true_iff] at h
    obtain ⟨hs, hss⟩ := h
    intro p hp
    cases s with
    | obj skvs =>
      rw [show segsUtf8Vals (JVal.obj skvs :: ss) =
          (match jlookup utf8Key skvs with
           | some v => [v]
           | none => []) ++ segsUtf8Vals ss from rfl] at hp
      rcases hu : jlookup utf8Key skvs with - | v
      · rw [hu] at hp
        exact ih hss p (by simpa using hp)
      · rw [hu] at hp
        rcases List.mem_append.mp hp with h' | h'
        · have hpv : p = v := by simpa using h'
          subst hpv
          simp only [wfSegB, utf8StrOkB, hu] at hs
          cases p with
          | str s' => exact ⟨s', rfl⟩
          | null => exact absurd hs (by simp)
          | bool b => exact absurd hs (by simp)
          | num n => exact absurd hs (by simp)
          | arr xs => exact absurd hs (by simp)
          | obj kvs' => exact absurd hs (by simp)
        · exact ih hss p h'
    | null => exact absurd hs (by simp [wfSegB])
    | bool b => exact absurd hs (by simp [wfSegB])
    | num n => exact absurd hs (by simp [wfSegB])
    | str s' => exact absurd hs (by simp [wfSegB])
    | arr xs => exact absurd hs (by simp [wfSegB])

lemma partsOfEvent_str (e : JVal) (h : wfEventB e = true) :
    ∃ ps, partsOfEvent e = .ok ps ∧ ∀ p ∈ ps, ∃ s, p = .str s := by
  cases e with
  | obj kvs =>
    rcases hseg : jlookup segsKey kvs with - | v
    · simp only [wfEventB, hseg] at h
      rcases hu : jlookup utf8Key kvs with - | w
      · refine ⟨[], ?_, by simp⟩
        simp only [partsOfEvent, pyContains, hseg, Option.isSome_none,
          Bool.false_eq_true, ite_false, hu]
      · refine ⟨[w], ?_, ?_⟩
        · simp only [partsOfEvent, pyContains, hseg, Option.isSome_none,
            Bool.false_eq_true, ite_false, hu, Option.isSome_some,
            ite_true, pyIndexStr]
        · intro p hp
          have hpw : p = w := by simpa using hp
          subst hpw
          simp only [utf8StrOkB, hu] at h
          cases p with
          | str s' => exact ⟨s', rfl⟩
          | null => exact absurd h (by simp)
          | bool b => exact absurd h (by simp)
          | num n => exact absurd h (by simp)
          | arr xs => exact absurd h (by simp)
          | obj kvs' => exact absurd h (by simp)
    · cases v with
      | arr ss =>
        simp only [wfEventB, hseg] at h
        refine ⟨segsUtf8Vals ss, ?_, segsUtf8Vals_str ss h⟩
        simp only [partsOfEvent, pyContains, hseg, Option.isSome_some,
          ite_true, pyIndexStr, pyIter]
        exact partsOfSegs_ok ss (all_wfSegB_objB ss h)
      | null =>
        simp only [wfEventB, hseg] at h
        exact absurd h (by simp)
      | bool b =>
        simp only [wfEventB, hseg] at h
        exact absurd h (by simp)
      | num n =>
        simp only [wfEventB, hseg] at h
        exact absurd h (by simp)
      | str s' =>
        simp only [wfEventB, hseg] at h
        exact absurd h (by simp)
      | obj kvs' =>
        simp only [wfEventB, hseg] at h
        exact absurd h (by simp)
  | null => exact absurd h (by simp [wfEventB])
  | bool b => exact absurd h (by simp [wfEventB])
  | num n => exact absurd h (by simp [wfEventB])
  | str s' => exact absurd h (by simp [wfEventB])
  | arr xs => exact absurd h (by simp [wfEventB])

lemma partsOfEvents_str (evs : List JVal) (h : evs.all wfEventB = true) :
    ∃ L, partsOfEvents evs = .ok L ∧ ∀ p ∈ L, ∃ s, p = .str s := by
  induction evs with
  | nil => exact ⟨[], rfl, by simp⟩
  | cons e es ih =>
    rw [List.all_cons, Bool.and_eq_true_iff] at h
    obtain ⟨he, hes⟩ := h
    obtain ⟨ps, hps, hstr⟩ := partsOfEvent_str e he
    obtain ⟨L, hL, hLstr⟩ := ih hes
    refine ⟨ps ++ L, ?_, ?_⟩
    · rw [partsOfEvents, hps, hL]
    · intro p hp
      rcases List.mem_append.mp hp with h' | h'
      · exact hstr p h'
      · exact hLstr p h'

lemma cleanedParts_ok (L : List JVal)
    (h : ∀ p ∈ L, pyTruthy p = true → ∃ s, p = .str s) :
    ∃ strs, cleanedParts L = .ok strs := by
  induction L with
  | nil => exact ⟨[], rfl⟩
  | cons p ps ih =>
    obtain ⟨strs, hstrs⟩ := ih (fun q hq ht => h q (by simp [hq]) ht)
    by_cases ht : pyTruthy p = true
    · obtain ⟨s, hs⟩ := h p (by simp) ht
      subst hs
      refine ⟨clean_text s :: strs, ?_⟩
      simp only [cleanedParts, ht, if_true, hstrs]
    · refine ⟨strs, ?_⟩
      simp only [cleanedParts, ht, Bool.false_eq_true, ite_false]
      exact hstrs

lemma partsOfBody_weak (items : List JVal)
    (h : items.all wfBodyItemB = true) :
    ∀ p ∈ partsOfBody items, pyTruthy p = true → ∃ s, p = .str s := by
  induction items with
  | nil => simp [partsOfBody]
  | cons i items ih =>
    rw [List.all_cons, Bool.and_eq_true_iff] at h
    obtain ⟨hi, hitems⟩ := h
    intro p hp ht
    cases i with
    | obj kvs =>
      rw [show partsOfBody (JVal.obj kvs :: items) =
          (match jlookup utf8Key kvs with
           | some v => [v]
           | none => []) ++ partsOfBody items from rfl] at hp
      rcases hu : jlookup utf8Key kvs with - | v
      · rw [hu] at hp
        exact ih hitems p (by simpa using hp) ht
      · rw [hu] at hp
        rcases List.mem_append.mp hp with h' | h'
        · have hpv : p = v := by simpa using h'
          subst hpv
          simp only [wfBodyItemB, hu] at hi
          cases p with
          | str s' => exact ⟨s', rfl⟩
          | null =>
            have hi' : (!pyTruthy JVal.null) = true := hi
            rw [ht] at hi'
            exact absurd hi' (by simp)
          | bool b =>
            have hi' : (!pyTruthy (JVal.bool b)) = true := hi
            rw [ht] at hi'
            exact absurd hi' (by simp)
          | num n =>
            have hi' : (!pyTruthy (JVal.num n)) = true := hi
            rw [ht] at hi'
            exact absurd hi' (by simp)
          | arr xs =>
            have hi' : (!pyTruthy (JVal.arr xs)) = true := hi
            rw [ht] at hi'
            exact absurd hi' (by simp)
          | obj kvs' =>
            have hi' : (!pyTruthy (JVal.obj kvs')) = true := hi
            rw [ht] at hi'
            exact absurd hi' (by simp)
        · exact ih hitems p h' ht
    | str s' =>
      rcases List.mem_cons.mp (by simpa [partsOfBody] using hp) with h' | h'
      · exact ⟨s', h'⟩
      · exact ih hitems p h' ht
    | null => exact ih hitems p (by simpa [partsOfBody] using hp) ht
    | bool b => exact ih hitems p (by simpa [partsOfBody] using hp) ht
    | num n => exact ih hitems p (by simpa [partsOfBody] using hp) ht
    | arr xs => exact ih hitems p (by simpa [partsOfBody] using hp) ht

lemma bodyBranch_ok (kvs : List (List Char × JVal))
    (h : bodyOkB kvs = true) :
    ∃ r, bodyBranch (.obj kvs) = .ok r := by
  rcases hb : jlookup bodyKey kvs with - | bv
  · refine ⟨none, ?_⟩
    simp only [bodyBranch, pyContains, hb, Option.isSome_none,
      Bool.false_eq_true, ite_false]
  · cases bv with
    | arr items =>
      simp only [bodyOkB, hb] at h
      by_cases hemp : (partsOfBody items).isEmpty = true
      · refine ⟨none, ?_⟩
        simp only [bodyBranch, pyContains, hb, Option.isSome_some,
          ite_true, pyIndexStr, hemp, if_true]
      · obtain ⟨strs, hstrs⟩ :=
          cleanedParts_ok (partsOfBody items) (partsOfBody_weak items h)
        refine ⟨some (joinWith spaceR strs), ?_⟩
        simp only [bodyBranch, pyContains, hb, Option.isSome_some,
          ite_true, pyIndexStr, hemp, Bool.false_eq_true, ite_false, hstrs]
    | null =>
      exact ⟨none, by simp only [bodyBranch, pyContains, hb,
        Option.isSome_some, ite_true, pyIndexStr]⟩
    | bool b =>
      exact ⟨none, by simp only [bodyBranch, pyContains, hb,
        Option.isSome_some, ite_true, pyIndexStr]⟩
    | num n =>
      exact ⟨none, by simp only [bodyBranch, pyContains, hb,
        Option.isSome_some, ite_true, pyIndexStr]⟩
    | str s' =>
      exact ⟨none, by simp only [bodyBranch, pyContains, hb,
        Option.isSome_some, ite_true, pyIndexStr]⟩
    | obj kvs' =>
      exact ⟨none, by simp only [bodyBranch, pyContains, hb,
        Option.isSome_some, ite_true, pyIndexStr]⟩

/-- C7 (amended): the JSON caption parser returns `None` without raising
on malformed JSON, and succeeds without raising on every well-shaped
object payload; but it is not exception-free on arbitrary payloads — a
payload whose JSON value is a scalar (e.g. the string `"5"`) makes the
membership test `'events' in data` raise `TypeError` (see the
counterexample). -/
theorem claim_C7_parser_totality :
    parseJsonCaptions none = .ok none ∧
    ∀ d, wfJsonB d = true → ∃ r, parseJsonCaptions (some d) = .ok r := by
  refine ⟨rfl, ?_⟩
  intro d h
  cases d with
  | obj kvs =>
    simp only [wfJsonB, Bool.and_eq_true_iff] at h
    obtain ⟨hev, hbody⟩ := h
    rcases he : jlookup eventsKey kvs with - | ev
    · obtain ⟨r, hr⟩ := bodyBranch_ok kvs hbody
      refine ⟨r, ?_⟩
      simp only [parseJsonCaptions, pyContains, he, Option.isSome_none,
        Bool.false_eq_true, ite_false]
      exact hr
    · cases ev with
      | arr evs =>
        rw [he] at hev
        obtain ⟨L, hL, hLstr⟩ := partsOfEvents_str evs hev
        by_cases hemp : L.isEmpty = true
        · obtain ⟨r, hr⟩ := bodyBranch_ok kvs hbody
          refine ⟨r, ?_⟩
          simp only [parseJsonCaptions, pyContains, he, Option.isSome_some,
            ite_true, pyIndexStr, pyIter, hL, hemp, if_true]
          exact hr
        · obtain ⟨strs, hstrs⟩ := cleanedParts_ok L
            (fun p hp _ => hLstr p hp)
          refine ⟨some (joinWith spaceR strs), ?_⟩
          simp only [parseJsonCaptions, pyContains, he, Option.isSome_some,
            ite_true, pyIndexStr, pyIter, hL]
          rw [if_neg hemp, hstrs]
      | null => rw [he] at hev; exact absurd hev (by simp)
      | bool b => rw [he] at hev; exact absurd hev (by simp)
      | num n => rw [he] at hev; exact absurd hev (by simp)
      | str s' => rw [he] at hev; exact absurd hev (by simp)
      | obj kvs' => rw [he] at hev; exact absurd hev (by simp)
  | null => exact absurd h (by simp [wfJsonB])
  | bool b => exact absurd h (by simp [wfJsonB])
  | num n => exact absurd h (by simp [wfJsonB])
  | str s' => exact absurd h (by simp [wfJsonB])
  | arr xs => exact absurd h (by simp [wfJsonB])

/-- Witness for C7: malformed JSON yields `None`, and a concrete
well-shaped JSON3 payload parses without error. -/
theorem claim_C7_parser_totality_witness :
    parseJsonCaptions none = .ok none ∧
    ∃ r, parseJsonCaptions (some (.obj [(eventsKey, .arr [.obj [(segsKey,
      .arr [.obj [(utf8Key, .str (("hello").toList))]])]])])) = .ok r := by
  exact ⟨claim_C7_parser_totality.1,
    claim_C7_parser_totality.2 _ (by decide)⟩

/-- Counterexample to C7 as stated: on the payload `"5"` (well-formed
JSON whose value is a number), `'events' in data` raises `TypeError`, so
the parser does not return an empty result for every input string. -/
theorem claim_C7_counterexample :
    parseJsonCaptions (some (.num 5)) = .error () := rfl

end Podster
